import Mathlib

/-!
Verification of the resource lifecycle service in `resources.py`.

The Flask handlers are embedded as pure Lean functions: the MongoDB
collection becomes an explicit list of records, the Cloudinary blob store
becomes a list of public ids together with an explicit outcome value for
each upload call, and HTTP form/query parameters become `Option String`
values (`none` = parameter absent, `some s` = parameter present with
value `s`, which may be empty).  Library helpers used by the source
(werkzeug's `secure_filename`, `os.path.splitext`, Python's `int`) are
embedded from their documented semantics, as noted at each definition.
-/

namespace ResourcesSpec

/-! ### Python-level string helpers -/

/-- Characters treated as whitespace by Python's `str.split()`. -/
def isPySpace (c : Char) : Bool :=
  c = ' ' || c = '\t' || c = '\n' || c = '\r' || c = '\x0b' || c = '\x0c'

/-- Characters kept by werkzeug's `secure_filename` filter
(regex `[A-Za-z0-9_.-]`): ASCII alphanumerics plus underscore, dot, dash. -/
def isAllowedFilenameChar (c : Char) : Bool :=
  c.isAlphanum || c = '_' || c = '.' || c = '-'

/-- Characters stripped from both ends by `secure_filename`
(Python `str.strip("._")`). -/
def isStripChar (c : Char) : Bool :=
  c = '.' || c = '_'

/-- Python's `str.lower()`, embedded for the ASCII range as a per-character
lowercase map (the source only lowercases ASCII file types and extensions). -/
def pyLower (s : String) : String :=
  ⟨s.data.map Char.toLower⟩

/-- Token accumulator for `pySplitWs`. -/
def pySplitWsGo : List Char → List Char → List (List Char)
  | [], acc => if acc = [] then [] else [acc.reverse]
  | c :: cs, acc =>
    if isPySpace c then
      if acc = [] then pySplitWsGo cs [] else acc.reverse :: pySplitWsGo cs []
    else
      pySplitWsGo cs (c :: acc)

/-- Python `str.split()` with no argument: split on runs of whitespace,
dropping empty tokens. -/
def pySplitWs (l : List Char) : List (List Char) :=
  pySplitWsGo l []

/-- Strip characters satisfying `p` from both ends of a list
(Python `str.strip(chars)`; stripping the right end first and then the
left end yields the same result as stripping both simultaneously). -/
def stripWhile (p : Char → Bool) (l : List Char) : List Char :=
  ((l.reverse.dropWhile p).reverse).dropWhile p

/-- werkzeug's `secure_filename`, embedded from its implementation:
replace the path separator (`/` on POSIX; `os.path.altsep` is `None`)
with a space, split on whitespace and re-join with underscores, keep
only characters matching `[A-Za-z0-9_.-]`, and strip leading/trailing
dots and underscores.  The initial NFKD/ASCII-encode step is modelled
as the identity; it only affects non-ASCII characters, which the
character filter removes in this model (werkzeug may first decompose
some of them into ASCII letters).  The Windows device-name special case
does not apply (`os.name` is `posix`). -/
def secure_filename_list (name : List Char) : List Char :=
  stripWhile isStripChar
    ((List.intercalate ['_']
        (pySplitWs (name.map (fun c => if c = '/' then ' ' else c)))).filter
      isAllowedFilenameChar)

/-- String-level wrapper of `secure_filename_list`. -/
def secure_filename (name : String) : String :=
  ⟨secure_filename_list name.data⟩

/-- Helper for `splitext`: returns `some (base, ext)` where `ext` starts
at the last dot of the list, or `none` when the list has no dot. -/
def splitExtAux : List Char → Option (List Char × List Char)
  | [] => none
  | c :: cs =>
    match splitExtAux cs with
    | some (b, e) => some (c :: b, e)
    | none => if c = '.' then some ([], c :: cs) else none

/-- Python's `os.path.splitext` for strings without a path separator
(the source only applies it to `secure_filename` output, which contains
no separator): split at the last dot, except that a name consisting of
leading dots only before that dot (for example `".pdf"` or `"..b"`)
has no extension. -/
def splitext (l : List Char) : List Char × List Char :=
  match splitExtAux l with
  | none => (l, [])
  | some (b, e) => if b.all (fun c => c == '.') then (l, []) else (b, e)

/-- The extension of a file name, in the sense of `os.path.splitext`. -/
def extOf (s : String) : String :=
  ⟨(splitext s.data).2⟩

/-- `get_file_extension` from `resources.py`: map a file type to its
canonical extension; unknown types map to the empty extension. -/
def get_file_extension (file_type : String) : String :=
  let ft := pyLower file_type
  if ft = "pdf" then ".pdf"
  else if ft = "doc" then ".doc"
  else if ft = "mp3" then ".mp3"
  else if ft = "mp4" then ".mp4"
  else if ft = "img" then ".jpg"
  else ""

/-- The file-name computation of `download_and_convert` from
`resources.py` (the function also fetches the payload bytes, which are
irrelevant to the name): sanitize the original name, then replace its
extension by the canonical one unless it already matches it
case-insensitively. -/
def download_and_convert_filename (original_filename file_type : String) : String :=
  let filename := secure_filename original_filename
  let be := splitext filename.data
  if be.2 = [] ∨ pyLower (String.mk be.2) ≠ get_file_extension file_type then
    String.mk be.1 ++ get_file_extension file_type
  else filename

/-! ### Python `int` parsing -/

/-- Digits of a decimal literal folded into a natural number. -/
def digitsToNat (ds : List Char) : Nat :=
  ds.foldl (fun a c => 10 * a + (c.toNat - 48)) 0

/-- Parse an unsigned run of decimal digits; fails on an empty or
non-digit run. -/
def parseDigits (ds : List Char) : Option Int :=
  if ds ≠ [] ∧ ds.all Char.isDigit then some (digitsToNat ds) else none

/-- Python's `int(str)`, embedded for the common fragment the handlers
receive: optional surrounding ASCII whitespace, an optional sign, then
decimal digits.  (Python additionally accepts underscores between
digits and non-ASCII decimal digits; such inputs are outside this
model.)  Returns `none` where `int()` raises `ValueError`. -/
def pyInt (s : String) : Option Int :=
  match stripWhile isPySpace s.data with
  | '+' :: ds => parseDigits ds
  | '-' :: ds => (parseDigits ds).map (fun n => -n)
  | ds => parseDigits ds

/-- Parse an optional query parameter the way
`int(request.args.get(key, default))` does: an absent parameter takes
the integer default, a present one must parse or the handler raises. -/
def pyIntOpt (o : Option String) (d : Int) : Option Int :=
  match o with
  | none => some d
  | some s => pyInt s

/-! ### A minimal model of MongoDB `$regex` matching with option `i`

The admin listing filters titles with `{title: {$regex: t, $options: "i"}}`.
MongoDB performs an unanchored, case-insensitive regular-expression
search of the pattern in the title.  The model below covers the regex
fragment in which `.` matches any single character and every character
other than `.` that is not a regex metacharacter matches itself; the
theorems about literal patterns (no metacharacters at all) and the
counterexample pattern `"a.c"` stay inside this fragment. -/

/-- PCRE regex metacharacters. -/
def isRegexMeta (c : Char) : Bool :=
  c = '.' || c = '^' || c = '$' || c = '*' || c = '+' || c = '?' ||
  c = '(' || c = ')' || c = '[' || c = ']' || c = '\x7b' || c = '\x7d' ||
  c = '|' || c = '\\'

/-- A pattern with no regex metacharacters at all. -/
def literalPattern (p : String) : Bool :=
  p.data.all (fun c => !isRegexMeta c)

/-- One pattern character against one text character, case-insensitive:
`.` matches anything, other characters match up to ASCII case. -/
def charMatches (pc tc : Char) : Bool :=
  pc = '.' || pc.toLower = tc.toLower

/-- Does the pattern match a prefix of the text? -/
def matchesHere : List Char → List Char → Bool
  | [], _ => true
  | _ :: _, [] => false
  | pc :: ps, tc :: ts => charMatches pc tc && matchesHere ps ts

/-- Unanchored regex search: does the pattern match anywhere in the text? -/
def regexSearch (p : List Char) : List Char → Bool
  | [] => matchesHere p []
  | tc :: ts => matchesHere p (tc :: ts) || regexSearch p ts

/-- Case-insensitive title match as the admin listing performs it. -/
def titleRegexMatch (pattern title : String) : Bool :=
  regexSearch pattern.data title.data

/-! ### Case-insensitive substring occurrence (the spec's wording) -/

/-- Lowercase a character list. -/
def lowerL (l : List Char) : List Char :=
  l.map Char.toLower

/-- Is the first list a prefix of the second? -/
def startsWithL : List Char → List Char → Bool
  | [], _ => true
  | _ :: _, [] => false
  | c :: cs, d :: ds => c = d && startsWithL cs ds

/-- Does the first list occur as a contiguous sublist of the second? -/
def containsSubL (p : List Char) : List Char → Bool
  | [] => startsWithL p []
  | c :: cs => startsWithL p (c :: cs) || containsSubL p cs

/-- Modelled from the spec: the needle occurs as a case-insensitive
substring of the hay (the claimed semantics of the admin title filter). -/
def substrCI (needle hay : String) : Bool :=
  containsSubL (lowerL needle.data) (lowerL hay.data)

/-! ### Data model -/

/-- A resource record as stored in the `resources` collection.
`file_url` and `cloudinary_public_id` are `Option` because the update
handler can store a missing (`None`) value for them; `created_at` is an
abstract timestamp. -/
structure Resource where
  title : String
  file_url : Option String
  file_type : String
  level : String
  department : String
  category : String
  created_at : Nat
  cloudinary_public_id : Option String
  original_filename : String
deriving DecidableEq

/-- The outcome value of a successful `cloudinary.uploader.upload` call;
either field may be absent from the returned dictionary. -/
structure UploadOutcome where
  secure_url : Option String
  public_id : Option String
deriving DecidableEq

/-- The form fields and file of an upload/update request.  `none` means
the field is absent from the form; `some s` means present with value
`s`, possibly empty.  A file is represented by its client filename. -/
structure RequestForm where
  title : Option String
  category : Option String
  level : Option String
  department : Option String
  file_type : Option String
  file : Option String
deriving DecidableEq

/-- Python truthiness of an optional form/query value: absent and empty
strings are falsy.  Returns the value when truthy. -/
def truthy : Option String → Option String
  | none => none
  | some s => if s = "" then none else some s

/-- Boolean truthiness of an optional string. -/
def isTruthy (o : Option String) : Bool :=
  (truthy o).isSome

/-- Python truthiness of a werkzeug `FileStorage`:
`request.files.get("file")` is `None` when no file part was sent, and a
`FileStorage` is falsy exactly when its filename is empty. -/
def fileTruthy : Option String → Bool
  | none => false
  | some fn => fn != ""

/-- Did the blob-store `put` fail, in the sense of spec section 4.2: the
remote call errors, or it returns no usable URL. -/
def putFailed : Except Unit UploadOutcome → Bool
  | .error _ => true
  | .ok ur => ur.secure_url.isNone

/-! ### Handlers -/

/-- `upload_resource` from `resources.py`.  `put` is the outcome of the
`cloudinary.uploader.upload` call (`.error` when it raises), `repo` the
current collection contents, `now` the timestamp.  Returns
`((status, success), repository after the call)`. -/
def upload_resource (form : RequestForm) (put : Except Unit UploadOutcome)
    (repo : List Resource) (now : Nat) : (Nat × Bool) × List Resource :=
  if form.title = none ∨ form.level = none ∨ form.department = none ∨
      form.category = none ∨ form.file_type = none ∨ fileTruthy form.file = false then
    ((400, false), repo)
  else
    match put with
    | .error _ => ((500, false), repo)
    | .ok ur =>
      match ur.secure_url with
      | none => ((500, false), repo)
      | some url =>
        let r : Resource := {
          title := form.title.getD ""
          file_url := some url
          file_type := pyLower (form.file_type.getD "")
          level := form.level.getD ""
          department := form.department.getD ""
          category := form.category.getD ""
          created_at := now
          cloudinary_public_id := ur.public_id
          original_filename := secure_filename (form.file.getD "") }
        ((201, true), repo ++ [r])

/-- `update_resource` from `resources.py`, for a record `r` that exists
(the handler has already passed the not-found check).  `blobs` is the
set of public ids present in the blob store; `cloudinary.uploader.destroy`
removes one, a successful upload adds one.  Returns
`((status, success), record after the call, blob store after the call)`. -/
def update_resource (r : Resource) (blobs : List String) (form : RequestForm)
    (put : Except Unit UploadOutcome) : (Nat × Bool) × Resource × List String :=
  let t := truthy form.title
  let c := truthy form.category
  let l := truthy form.level
  let d := truthy form.department
  let ft := truthy form.file_type
  if fileTruthy form.file = false then
    ((200, true),
     { r with
        title := t.getD r.title
        category := c.getD r.category
        level := l.getD r.level
        department := d.getD r.department
        file_type := ft.getD r.file_type },
     blobs)
  else
    let blobs1 :=
      match r.cloudinary_public_id with
      | some pid => if pid = "" then blobs else blobs.erase pid
      | none => blobs
    match put with
    | .error _ => ((500, false), r, blobs1)
    | .ok ur =>
      let blobs2 :=
        match ur.public_id with
        | some pid => blobs1 ++ [pid]
        | none => blobs1
      ((200, true),
       { r with
          title := t.getD r.title
          category := c.getD r.category
          level := l.getD r.level
          department := d.getD r.department
          file_url := ur.secure_url
          cloudinary_public_id := ur.public_id
          original_filename := secure_filename (form.file.getD "")
          file_type := form.file_type.getD r.file_type },
       blobs2)

/-- A character valid in the 24-character hexadecimal form of a BSON
`ObjectId`. -/
def isHexChar (c : Char) : Bool :=
  c.isDigit || ('a' ≤ c && c ≤ 'f') || ('A' ≤ c && c ≤ 'F')

/-- Is the string accepted by `bson.ObjectId`?  A string argument must
be exactly 24 hexadecimal characters, else `ObjectId` raises. -/
def isValidObjectId (s : String) : Bool :=
  s.data.length = 24 && s.data.all isHexChar

/-- `get_single_resource` from `resources.py`; the repository is a list
of `(id, record)` pairs (ObjectId equality modelled as equality of the
24-character hex strings).  Returns `(status, success, error message)`. -/
def get_single_resource (repo : List (String × Resource)) (rid : String) :
    Nat × Bool × String :=
  if isValidObjectId rid = false then (400, false, "Invalid resource ID")
  else
    match repo.find? (fun p => p.1 == rid) with
    | none => (404, false, "Resource not found")
    | some _ => (200, true, "")

/-- Insert a record into a list sorted by `created_at` descending,
keeping earlier-listed records first on ties. -/
def insertDesc (r : Resource) : List Resource → List Resource
  | [] => [r]
  | x :: xs => if r.created_at ≤ x.created_at then x :: insertDesc r xs else r :: x :: xs

/-- The repository's `sort("created_at", DESCENDING)`: a deterministic
sort, descending by `created_at`, stable on ties. -/
def sortByCreatedDesc : List Resource → List Resource
  | [] => []
  | x :: xs => insertDesc x (sortByCreatedDesc xs)

/-- The filter built by `get_user_resources`: exact match on department
and level, plus exact match on category when that parameter is truthy. -/
def matchesUserQuery (department level : String) (category : Option String)
    (r : Resource) : Bool :=
  r.department == department && r.level == level &&
    (match truthy category with
     | none => true
     | some c => r.category == c)

/-- `get_user_resources` from `resources.py`.  Query parameters are
`Option String`; returns `(status, success, resources)`. -/
def get_user_resources (department level category page limit : Option String)
    (repo : List Resource) : Nat × Bool × List Resource :=
  if isTruthy department = false || isTruthy level = false then
    (400, false, [])
  else
    match pyIntOpt page 1, pyIntOpt limit 10 with
    | some p, some l =>
      let pageN := max 1 p
      let limitN := max 1 (min 50 l)
      let skip := (pageN - 1) * limitN
      (200, true,
        ((sortByCreatedDesc (repo.filter
            (matchesUserQuery (department.getD "") (level.getD "") category))).drop
          skip.toNat).take limitN.toNat)
    | _, _ => (500, false, [])

/-- The filter built by `get_all_resources`: exact match on each truthy
field among department, level, category, file_type, and a
case-insensitive regex search on the title when that parameter is
truthy. -/
def matchesAdminQuery (department level category file_type title : Option String)
    (r : Resource) : Bool :=
  (match truthy department with | none => true | some v => r.department == v) &&
  (match truthy level with | none => true | some v => r.level == v) &&
  (match truthy category with | none => true | some v => r.category == v) &&
  (match truthy file_type with | none => true | some v => r.file_type == v) &&
  (match truthy title with | none => true | some v => titleRegexMatch v r.title)

/-- `get_all_resources` from `resources.py` (the admin listing). -/
def get_all_resources (department level category file_type title page limit : Option String)
    (repo : List Resource) : Nat × Bool × List Resource :=
  match pyIntOpt page 1, pyIntOpt limit 20 with
  | some p, some l =>
    let pageN := max 1 p
    let limitN := max 1 (min 100 l)
    let skip := (pageN - 1) * limitN
    (200, true,
      ((sortByCreatedDesc (repo.filter
          (matchesAdminQuery department level category file_type title))).drop
        skip.toNat).take limitN.toNat)
  | _, _ => (500, false, [])

/-- A sample record used as a concrete input by counterexamples and
witnesses. -/
def rScratch : Resource :=
  { title := "T", file_url := some "u", file_type := "pdf", level := "100",
    department := "CS", category := "notes", created_at := 5,
    cloudinary_public_id := some "pid", original_filename := "t.pdf" }

/-! ### Regex-versus-substring lemmas for the admin title filter -/

/-- For a pattern without the `.` wildcard, one-character matching is
case-insensitive character equality. -/
theorem matchesHere_literal (p : List Char) (hp : ∀ c ∈ p, c ≠ '.') :
    ∀ t, matchesHere p t = startsWithL (lowerL p) (lowerL t) := by
  induction p with
  | nil => intro t; cases t <;> rfl
  | cons c ps ih =>
    intro t
    cases t with
    | nil => rfl
    | cons d ds =>
      have hc : c ≠ '.' := hp c (List.mem_cons_self c ps)
      have ihp : ∀ x ∈ ps, x ≠ '.' := fun x hx => hp x (List.mem_cons_of_mem c hx)
      simp [matchesHere, startsWithL, lowerL, charMatches, hc, ih ihp ds]

/-- For a pattern without the `.` wildcard, unanchored regex search is
case-insensitive substring occurrence. -/
theorem regexSearch_literal (p : List Char) (hp : ∀ c ∈ p, c ≠ '.') :
    ∀ t, regexSearch p t = containsSubL (lowerL p) (lowerL t) := by
  intro t
  induction t with
  | nil => simp [regexSearch, containsSubL, matchesHere_literal p hp, lowerL]
  | cons d ds ih =>
    simp [regexSearch, containsSubL, matchesHere_literal p hp, ih, lowerL]

/-- A pattern with no regex metacharacters in particular contains no dot. -/
theorem literalPattern_no_dot {p : String} (h : literalPattern p = true) :
    ∀ c ∈ p.data, c ≠ '.' := by
  intro c hc he
  have := (List.all_eq_true.mp h) c hc
  subst he
  simp [isRegexMeta] at this

/-! ### Lemmas about the filename normalizer -/

theorem head_dropWhile_not {α : Type} {p : α → Bool} :
    ∀ {l : List α} {c : α}, (l.dropWhile p).head? = some c → p c = false := by
  intro l
  induction l with
  | nil => intro c h; simp at h
  | cons a as ih =>
    intro c h
    by_cases hpa : p a = true
    · rw [List.dropWhile_cons, if_pos hpa] at h
      exact ih h
    · rw [List.dropWhile_cons, if_neg hpa] at h
      simp at h
      subst h
      simpa using hpa

theorem stripWhile_head {p : Char → Bool} {l : List Char} {c : Char} {t : List Char}
    (h : stripWhile p l = c :: t) : p c = false := by
  have h2 : (stripWhile p l).head? = some c := by rw [h]; rfl
  unfold stripWhile at h2
  exact head_dropWhile_not h2

theorem mem_of_mem_dropWhile {α : Type} {p : α → Bool} :
    ∀ {l : List α} {a : α}, a ∈ l.dropWhile p → a ∈ l := by
  intro l
  induction l with
  | nil => intro a h; simp at h
  | cons x xs ih =>
    intro a h
    by_cases hx : p x = true
    · rw [List.dropWhile_cons, if_pos hx] at h
      exact List.mem_cons_of_mem x (ih h)
    · rw [List.dropWhile_cons, if_neg hx] at h
      exact h

theorem mem_of_mem_stripWhile {p : Char → Bool} {l : List Char} {a : Char}
    (h : a ∈ stripWhile p l) : a ∈ l := by
  unfold stripWhile at h
  have h1 := mem_of_mem_dropWhile h
  rw [List.mem_reverse] at h1
  have h2 := mem_of_mem_dropWhile h1
  rw [List.mem_reverse] at h2
  exact h2

/-- Every character of a sanitized filename is in the allowed set. -/
theorem secure_filename_chars (name : String) :
    ∀ c ∈ (secure_filename name).data, isAllowedFilenameChar c = true := by
  intro c hc
  have h1 : c ∈ secure_filename_list name.data := hc
  unfold secure_filename_list at h1
  have h2 := mem_of_mem_stripWhile h1
  exact (List.mem_filter.mp h2).2

/-- Allowed filename characters are not path separators. -/
theorem allowed_no_sep {c : Char} (h : isAllowedFilenameChar c = true) :
    c ≠ '/' ∧ c ≠ '\\' := by
  constructor <;> rintro rfl <;> exact absurd h (by decide)

/-- A nonempty sanitized filename starts with a non-stripped character
(in particular not with a dot). -/
theorem secure_filename_head (name : String) (h : secure_filename name ≠ "") :
    ∃ c t, (secure_filename name).data = c :: t ∧ isStripChar c = false := by
  cases hd : (secure_filename name).data with
  | nil =>
    exfalso
    apply h
    have he : secure_filename name = ⟨(secure_filename name).data⟩ := rfl
    rw [he, hd]
  | cons c t =>
    refine ⟨c, t, rfl, ?_⟩
    have h2 : stripWhile isStripChar
        ((List.intercalate ['_']
            (pySplitWs (name.data.map (fun c => if c = '/' then ' ' else c)))).filter
          isAllowedFilenameChar) = c :: t := hd
    exact stripWhile_head h2

theorem splitExtAux_none_of_no_dot :
    ∀ {l : List Char}, (∀ c ∈ l, c ≠ '.') → splitExtAux l = none := by
  intro l
  induction l with
  | nil => intro _; rfl
  | cons a as ih =>
    intro h
    have ha : a ≠ '.' := h a (List.mem_cons_self a as)
    have has : ∀ c ∈ as, c ≠ '.' := fun c hc => h c (List.mem_cons_of_mem a hc)
    simp [splitExtAux, ih has, ha]

theorem no_dot_of_splitExtAux_none :
    ∀ {l : List Char}, splitExtAux l = none → ∀ c ∈ l, c ≠ '.' := by
  intro l
  induction l with
  | nil => intro _ c hc; simp at hc
  | cons a as ih =>
    intro h c hc
    simp only [splitExtAux] at h
    cases hx : splitExtAux as with
    | some be =>
      rw [hx] at h
      simp at h
    | none =>
      rw [hx] at h
      by_cases ha : a = '.'
      · rw [if_pos ha] at h
        simp at h
      · rcases List.mem_cons.mp hc with rfl | hc2
        · exact ha
        · exact ih hx c hc2

theorem splitExtAux_append (rest : List Char) (hrest : ∀ c ∈ rest, c ≠ '.') :
    ∀ u : List Char, splitExtAux (u ++ '.' :: rest) = some (u, '.' :: rest) := by
  intro u
  induction u with
  | nil =>
    simp [splitExtAux, splitExtAux_none_of_no_dot hrest]
  | cons c cs ih =>
    simp [splitExtAux, ih]

theorem splitExtAux_parts :
    ∀ {l b e : List Char}, splitExtAux l = some (b, e) →
      l = b ++ e ∧ ∃ t, e = '.' :: t ∧ ∀ c ∈ t, c ≠ '.' := by
  intro l
  induction l with
  | nil => intro b e h; simp [splitExtAux] at h
  | cons a as ih =>
    intro b e h
    simp only [splitExtAux] at h
    cases hx : splitExtAux as with
    | some be =>
      obtain ⟨b0, e0⟩ := be
      rw [hx] at h
      simp at h
      obtain ⟨h1, h2⟩ := h
      subst h1
      subst h2
      obtain ⟨hl, ht⟩ := ih hx
      exact ⟨by rw [List.cons_append, ← hl], ht⟩
    | none =>
      rw [hx] at h
      by_cases ha : a = '.'
      · rw [if_pos ha] at h
        simp at h
        obtain ⟨h1, h2⟩ := h
        subst h1
        subst h2
        subst ha
        exact ⟨rfl, as, rfl, no_dot_of_splitExtAux_none hx⟩
      · rw [if_neg ha] at h
        simp at h

/-- A name splits into its base and extension. -/
theorem splitext_parts (l : List Char) : (splitext l).1 ++ (splitext l).2 = l := by
  unfold splitext
  cases h : splitExtAux l with
  | none => simp
  | some be =>
    obtain ⟨b, e⟩ := be
    have hl := (splitExtAux_parts h).1
    by_cases hall : b.all (fun c => c == '.') = true
    · simp [hall]
    · simp only [Bool.not_eq_true] at hall
      simp [hall]
      exact hl.symm

/-- Appending a dot-led, otherwise dot-free extension to a base that
contains a non-dot character splits back into exactly that base and
extension. -/
theorem splitext_append (u rest : List Char) (hrest : ∀ c ∈ rest, c ≠ '.')
    (hu : ∃ c ∈ u, c ≠ '.') :
    splitext (u ++ '.' :: rest) = (u, '.' :: rest) := by
  have hall : (u.all fun c => c == '.') = false := by
    by_contra hcon
    have hA : (u.all fun c => c == '.') = true := by
      cases hx : u.all fun c => c == '.'
      · exact absurd hx hcon
      · rfl
    obtain ⟨c, hc, hcd⟩ := hu
    exact hcd (by simpa using List.all_eq_true.mp hA c hc)
  unfold splitext
  rw [splitExtAux_append rest hrest u]
  simp [hall]

/-- The five known file types and their canonical extensions. -/
theorem get_file_extension_cases (ft : String) :
    get_file_extension ft = "" ∨
      get_file_extension ft ∈ ([".pdf", ".doc", ".mp3", ".mp4", ".jpg"] : List String) := by
  simp only [get_file_extension]
  repeat' split
  all_goals simp

/-- Shape facts about a known canonical extension. -/
theorem canon_shape {s : String}
    (h : s ∈ ([".pdf", ".doc", ".mp3", ".mp4", ".jpg"] : List String)) :
    ∃ t, s.data = '.' :: t ∧ (∀ c ∈ t, c ≠ '.') ∧ pyLower s = s ∧
      ∀ c ∈ s.data, c ≠ '/' ∧ c ≠ '\\' := by
  fin_cases h <;> exact ⟨_, rfl, by decide, by decide, by decide⟩

/-! ### Claim theorems -/

/-- Claim C2, counterexample: for the original name `"a.b.txt"` and the
unknown type `"zip"`, the normalizer replaces only the final extension
by the (empty) canonical one: the output is `"a.b"`, whose extension is
`".b"`, not the empty extension the claim requires for unknown types. -/
theorem normalize_unknown_type_keeps_extension :
    download_and_convert_filename "a.b.txt" "zip" = "a.b" ∧
    extOf "a.b" = ".b" ∧ get_file_extension "zip" = "" ∧ (".b" : String) ≠ "" :=
  ⟨by decide, rfl, rfl, by decide⟩

/-- Claim C2 (amended): the normalizer's output never contains a path
separator; and for a known file type (canonical extension nonempty),
provided the sanitized name is nonempty, the output's extension equals
the canonical extension for the type up to ASCII case.  (For unknown
types only the last extension is stripped, so the output's extension
need not be empty; a name that sanitizes to the empty string yields a
bare dot-led output whose `splitext` extension is empty.) -/
theorem normalize_extension_correct (name file_type : String) :
    (∀ c ∈ (download_and_convert_filename name file_type).data, c ≠ '/' ∧ c ≠ '\\') ∧
    (get_file_extension file_type ≠ "" → secure_filename name ≠ "" →
      pyLower (extOf (download_and_convert_filename name file_type)) =
        get_file_extension file_type) := by
  have hsep : ∀ x ∈ (secure_filename name).data, x ≠ '/' ∧ x ≠ '\\' :=
    fun x hx => allowed_no_sep (secure_filename_chars name x hx)
  have hcansep : ∀ x ∈ (get_file_extension file_type).data, x ≠ '/' ∧ x ≠ '\\' := by
    rcases get_file_extension_cases file_type with h | h
    · rw [h]
      intro x hx
      simp at hx
    · obtain ⟨t, _, _, _, h4⟩ := canon_shape h
      exact h4
  constructor
  · intro c hc
    simp only [download_and_convert_filename] at hc
    split at hc
    · have hc2 : c ∈ (splitext (secure_filename name).data).1 ++
          (get_file_extension file_type).data := hc
      rcases List.mem_append.mp hc2 with h1 | h1
      · apply hsep
        rw [← splitext_parts (secure_filename name).data]
        exact List.mem_append_left _ h1
      · exact hcansep c h1
    · exact hsep c hc
  · intro hcanon hne
    rcases get_file_extension_cases file_type with h0 | hmem
    · exact absurd h0 hcanon
    obtain ⟨t, hdata, htnd, hlow, _⟩ := canon_shape hmem
    obtain ⟨c0, s0, hs, hc0⟩ := secure_filename_head name hne
    have hc0d : c0 ≠ '.' := by
      intro he
      rw [he] at hc0
      simp [isStripChar] at hc0
    have hwit : ∃ c ∈ (secure_filename name).data, c ≠ '.' := by
      rw [hs]
      exact ⟨c0, List.mem_cons_self c0 s0, hc0d⟩
    cases haux : splitExtAux (secure_filename name).data with
    | none =>
      have hsplit : splitext (secure_filename name).data =
          ((secure_filename name).data, []) := by
        unfold splitext
        rw [haux]
      have hout : download_and_convert_filename name file_type =
          String.mk (secure_filename name).data ++ get_file_extension file_type := by
        simp [download_and_convert_filename, hsplit]
      rw [hout]
      have hdc : (String.mk (secure_filename name).data ++ get_file_extension file_type).data =
          (secure_filename name).data ++ '.' :: t := by
        show (secure_filename name).data ++ (get_file_extension file_type).data = _
        rw [hdata]
      unfold extOf
      rw [hdc, splitext_append _ t htnd hwit]
      show pyLower (String.mk ('.' :: t)) = get_file_extension file_type
      rw [show String.mk ('.' :: t) = get_file_extension file_type from by rw [← hdata]]
      exact hlow
    | some be =>
      obtain ⟨b, e⟩ := be
      obtain ⟨hbe, t2, het2, hnt2⟩ := splitExtAux_parts haux
      by_cases hall : b.all (fun c => c == '.') = true
      · exfalso
        cases b with
        | nil =>
          rw [List.nil_append] at hbe
          rw [het2] at hbe
          rw [hs] at hbe
          injection hbe with h1 _
          exact hc0d h1
        | cons b0 bs =>
          have hb0 : b0 = '.' := by
            have := List.all_eq_true.mp hall b0 (List.mem_cons_self b0 bs)
            simpa using this
          rw [hs, List.cons_append] at hbe
          injection hbe with h1 _
          exact hc0d (h1.trans hb0)
      · have hallf : (b.all fun c => c == '.') = false := by
          simpa using hall
        have hub : ∃ c ∈ b, c ≠ '.' := by
          by_contra hcon
          push_neg at hcon
          have hA : (b.all fun c => c == '.') = true :=
            List.all_eq_true.mpr fun c hc => by simpa using hcon c hc
          simp [hA] at hallf
        have hsplit : splitext (secure_filename name).data = (b, e) := by
          unfold splitext
          rw [haux]
          simp [hallf]
        by_cases hlow2 : pyLower ⟨e⟩ = get_file_extension file_type
        · have hout : download_and_convert_filename name file_type = secure_filename name := by
            simp only [download_and_convert_filename, hsplit]
            rw [if_neg]
            push_neg
            constructor
            · rw [het2]
              simp
            · exact hlow2
          rw [hout]
          unfold extOf
          rw [hsplit]
          exact hlow2
        · have hout : download_and_convert_filename name file_type =
              String.mk b ++ get_file_extension file_type := by
            simp only [download_and_convert_filename, hsplit]
            rw [if_pos (Or.inr hlow2)]
          rw [hout]
          have hdc : (String.mk b ++ get_file_extension file_type).data =
              b ++ '.' :: t := by
            show b ++ (get_file_extension file_type).data = _
            rw [hdata]
          unfold extOf
          rw [hdc, splitext_append b t htnd hub]
          show pyLower (String.mk ('.' :: t)) = get_file_extension file_type
          rw [show String.mk ('.' :: t) = get_file_extension file_type from by rw [← hdata]]
          exact hlow

/-- Witness for the amended C2 theorem at a concrete name and type. -/
theorem normalize_extension_correct_witness :
    pyLower (extOf (download_and_convert_filename "Notes.txt" "doc")) =
      get_file_extension "doc" :=
  (normalize_extension_correct "Notes.txt" "doc").2 (by decide) (by decide)

/-- Claim C1, counterexample: a create request whose `title` is supplied
as the empty string, with every other field present, a payload, and a
successful blob upload, is not rejected: the handler returns 201 and a
record is inserted, so "missing or empty" does not imply a validation
error (only `None` values are checked). -/
theorem upload_accepts_empty_title :
    (upload_resource ⟨some "", some "100", some "CS", some "notes", some "pdf", some "a.pdf"⟩
        (.ok ⟨some "https://x/y", some "pid1"⟩) [] 0).1.1 = 201 ∧
    (upload_resource ⟨some "", some "100", some "CS", some "notes", some "pdf", some "a.pdf"⟩
        (.ok ⟨some "https://x/y", some "pid1"⟩) [] 0).2 ≠ [] :=
  ⟨rfl, by decide⟩

/-- Claim C1 (amended): a create request in which any of the five
required fields is absent from the form, or the file part is missing or
has an empty filename, returns the 400 validation error and leaves the
repository unchanged.  (Fields supplied as empty strings are accepted.) -/
theorem upload_validation_rejects_absent_fields
    (form : RequestForm) (put : Except Unit UploadOutcome)
    (repo : List Resource) (now : Nat)
    (h : form.title = none ∨ form.level = none ∨ form.department = none ∨
      form.category = none ∨ form.file_type = none ∨ fileTruthy form.file = false) :
    upload_resource form put repo now = ((400, false), repo) := by
  unfold upload_resource
  rw [if_pos h]

/-- Witness for the amended C1 theorem at a concrete request. -/
theorem upload_validation_rejects_absent_fields_witness :
    upload_resource ⟨none, some "100", some "CS", some "notes", some "pdf", some "a.pdf"⟩
        (.ok ⟨some "u", some "p"⟩) [] 0 = ((400, false), []) :=
  upload_validation_rejects_absent_fields _ _ _ _ (Or.inl rfl)

/-- Claim C3: the scoped listing requires truthy `department` and `level`
(absent or empty yields the 400 validation error); otherwise, with
parseable page and limit parameters, the result is the filtered,
sorted repository with `(max 1 page - 1) * limit` records skipped and
the limit clamped to `[1, 50]`, defaulting to 10. -/
theorem user_list_validation_and_pagination
    (department level category page limit : Option String) (repo : List Resource) :
    ((isTruthy department = false ∨ isTruthy level = false) →
      get_user_resources department level category page limit repo = (400, false, [])) ∧
    (∀ p l : Int, isTruthy department = true → isTruthy level = true →
      pyIntOpt page 1 = some p → pyIntOpt limit 10 = some l →
      get_user_resources department level category page limit repo =
        (200, true,
          ((sortByCreatedDesc (repo.filter
              (matchesUserQuery (department.getD "") (level.getD "") category))).drop
            (((max 1 p - 1) * max 1 (min 50 l)).toNat)).take ((max 1 (min 50 l)).toNat))) := by
  constructor
  · intro h
    rcases h with h | h <;> simp [get_user_resources, h]
  · intro p l hd hl hp hL
    simp [get_user_resources, hd, hl, hp, hL]

/-- Witness for the C3 theorem at a concrete request. -/
theorem user_list_validation_and_pagination_witness :
    get_user_resources (some "CS") (some "100") none (some "2") (some "999") [] =
      (200, true, []) := by
  have h := (user_list_validation_and_pagination (some "CS") (some "100") none
      (some "2") (some "999") []).2 2 999 rfl rfl rfl rfl
  exact h.trans (by decide)

/-- Claim C4, counterexample: the admin title filter `"a.c"` matches the
record titled `"abc"` (the filter is passed to the repository as a
regular expression, where `.` matches any character), although `"a.c"`
does not occur as a case-insensitive substring of `"abc"`. -/
theorem admin_title_regex_not_substring :
    (get_all_resources none none none none (some "a.c") none none
        [{ rScratch with title := "abc" }]).2.2 = [{ rScratch with title := "abc" }] ∧
    substrCI "a.c" "abc" = false :=
  ⟨by decide, rfl⟩

/-- Claim C4 (amended): the admin title filter is a case-insensitive
unanchored regex search, which coincides with case-insensitive
substring occurrence exactly for filters free of regex metacharacters;
the effective limit is the requested limit clamped to `[1, 100]`,
defaulting to 20. -/
theorem admin_title_literal_filter_and_limit
    (department level category file_type : Option String)
    (f : String) (repo : List Resource) :
    (literalPattern f = true →
      ∀ title : String, titleRegexMatch f title = substrCI f title) ∧
    (∀ (page limit : Option String) (p l : Int),
      pyIntOpt page 1 = some p → pyIntOpt limit 20 = some l →
      get_all_resources department level category file_type (some f) page limit repo =
        (200, true,
          ((sortByCreatedDesc (repo.filter
              (matchesAdminQuery department level category file_type (some f)))).drop
            (((max 1 p - 1) * max 1 (min 100 l)).toNat)).take ((max 1 (min 100 l)).toNat))) := by
  constructor
  · intro hf title
    exact regexSearch_literal f.data (literalPattern_no_dot hf) title.data
  · intro page limit p l hp hL
    simp [get_all_resources, hp, hL]

/-- Witness for the amended C4 theorem at a concrete filter and request. -/
theorem admin_title_literal_filter_and_limit_witness :
    titleRegexMatch "calc" "Calculus I" = substrCI "calc" "Calculus I" ∧
    get_all_resources none none none none (some "calc") (some "1") (some "500") [] =
      (200, true, []) := by
  have h := admin_title_literal_filter_and_limit none none none none "calc" []
  refine ⟨h.1 (by decide) "Calculus I", ?_⟩
  exact (h.2 (some "1") (some "500") 1 500 rfl rfl).trans (by decide)

/-- Claim C5: an update without a payload returns success, patches each
metadata field to its truthy supplied value or keeps the prior value,
and leaves `file_url`, `cloudinary_public_id` (the storage ref) and
`original_filename` unchanged; the blob store is untouched. -/
theorem update_without_payload_frame
    (r : Resource) (blobs : List String) (form : RequestForm)
    (put : Except Unit UploadOutcome) (h : fileTruthy form.file = false) :
    update_resource r blobs form put =
      ((200, true),
       { r with
          title := (truthy form.title).getD r.title
          category := (truthy form.category).getD r.category
          level := (truthy form.level).getD r.level
          department := (truthy form.department).getD r.department
          file_type := (truthy form.file_type).getD r.file_type },
       blobs) := by
  simp [update_resource, h]

/-- Witness for the C5 theorem at a concrete record and request. -/
theorem update_without_payload_frame_witness :
    update_resource rScratch [] ⟨some "New", none, none, none, some "", none⟩ (.error ()) =
      ((200, true), { rScratch with title := "New" }, []) := by
  have h := update_without_payload_frame rScratch []
      ⟨some "New", none, none, none, some "", none⟩ (.error ()) rfl
  exact h.trans (by decide)

/-- Claim C6, counterexample: an update whose new upload fails in the
sense of spec section 4.2 by returning no usable URL is committed
anyway: the handler reports success (200) and overwrites the stored
record (clearing `file_url`), rather than signalling `UploadRejected`
and leaving the record unchanged. -/
theorem update_upload_no_url_commits :
    putFailed (.ok ⟨none, none⟩) = true ∧
    (update_resource rScratch ["pid"] ⟨none, none, none, none, none, some "v2.pdf"⟩
        (.ok ⟨none, none⟩)).1 = (200, true) ∧
    (update_resource rScratch ["pid"] ⟨none, none, none, none, none, some "v2.pdf"⟩
        (.ok ⟨none, none⟩)).2.1 ≠ rScratch :=
  ⟨rfl, rfl, by decide⟩

/-- Claim C6 (amended): when the upload of the new payload raises an
error, the update reports a 500 failure and commits no repository
change (the stored record is returned unchanged), even though the old
blob has already been removed from the blob store; an upload that
returns without a usable URL is nevertheless committed, with a null
`file_url` and storage ref. -/
theorem update_upload_error_no_commit
    (r : Resource) (blobs : List String) (form : RequestForm) (pid : String)
    (hfile : fileTruthy form.file = true) (hpid : r.cloudinary_public_id = some pid)
    (hne : pid ≠ "") :
    update_resource r blobs form (.error ()) = ((500, false), r, blobs.erase pid) := by
  simp [update_resource, hfile, hpid, hne]

/-- Witness for the amended C6 theorem at a concrete record and request. -/
theorem update_upload_error_no_commit_witness :
    update_resource rScratch ["pid", "other"] ⟨none, none, none, none, none, some "v2.pdf"⟩
        (.error ()) = ((500, false), rScratch, ["other"]) := by
  have h := update_upload_error_no_commit rScratch ["pid", "other"]
      ⟨none, none, none, none, none, some "v2.pdf"⟩ "pid" rfl rfl (by decide)
  exact h.trans (by decide)

/-- Claim C7: a create request that passes validation and whose blob
upload fails (the call errors, or returns no usable URL) aborts with a
500 failure and writes no record to the repository. -/
theorem upload_put_failure_no_insert
    (form : RequestForm) (put : Except Unit UploadOutcome)
    (repo : List Resource) (now : Nat)
    (h1 : form.title ≠ none) (h2 : form.level ≠ none) (h3 : form.department ≠ none)
    (h4 : form.category ≠ none) (h5 : form.file_type ≠ none)
    (h6 : fileTruthy form.file = true) (hf : putFailed put = true) :
    upload_resource form put repo now = ((500, false), repo) := by
  unfold upload_resource
  rw [if_neg]
  · cases put with
    | error e => rfl
    | ok ur =>
      simp only [putFailed] at hf
      cases hsu : ur.secure_url with
      | none => simp [hsu]
      | some u => rw [hsu] at hf; simp at hf
  · push_neg
    exact ⟨h1, h2, h3, h4, h5, by simp [h6]⟩

/-- Witness for the C7 theorem at a concrete request. -/
theorem upload_put_failure_no_insert_witness :
    upload_resource ⟨some "T", some "100", some "CS", some "notes", some "pdf", some "a.pdf"⟩
        (.error ()) [rScratch] 0 = ((500, false), [rScratch]) :=
  upload_put_failure_no_insert _ _ _ _ (by decide) (by decide) (by decide) (by decide)
    (by decide) (by decide) rfl

/-- Claim C8, counterexample: a read-single request with the malformed
identifier `"xyz"` returns the 400 "Invalid resource ID" response, not
the 404 `NotFound` response the claim asserts. -/
theorem get_single_malformed_id_is_400 :
    get_single_resource [] "xyz" = (400, false, "Invalid resource ID") ∧
    get_single_resource [] "xyz" ≠ (404, false, "Resource not found") :=
  ⟨rfl, by decide⟩

/-- Claim C8 (amended): a read-single request returns the 404 `NotFound`
response when the identifier is a well-formed ObjectId with no matching
record, and the 400 "Invalid resource ID" response when the identifier
is not well-formed. -/
theorem get_single_notfound_and_invalid
    (repo : List (String × Resource)) (rid : String) :
    (isValidObjectId rid = true → repo.find? (fun p => p.1 == rid) = none →
      get_single_resource repo rid = (404, false, "Resource not found")) ∧
    (isValidObjectId rid = false →
      get_single_resource repo rid = (400, false, "Invalid resource ID")) := by
  constructor
  · intro hv hf
    simp [get_single_resource, hv, hf]
  · intro hv
    simp [get_single_resource, hv]

/-- Witness for the amended C8 theorem at a concrete identifier. -/
theorem get_single_notfound_and_invalid_witness :
    get_single_resource [] "0123456789abcdef01234567" = (404, false, "Resource not found") :=
  (get_single_notfound_and_invalid [] "0123456789abcdef01234567").1 (by decide) rfl

/-- Claim C9, counterexample: an update that supplies a payload together
with `file_type` as the empty string clears the stored `file_type` to
the empty string (`request.form.get("file_type", prior)` returns the
supplied empty value), so a metadata field can be emptied via update. -/
theorem update_payload_empty_file_type_clears :
    rScratch.file_type = "pdf" ∧
    (update_resource rScratch ["pid"] ⟨none, none, none, none, some "", some "new.mp4"⟩
        (.ok ⟨some "u2", some "pid2"⟩)).2.1.file_type = "" :=
  ⟨rfl, rfl⟩

/-- Claim C9 (amended): `title`, `category`, `level` and `department`
supplied as empty strings are treated as absent and keep their prior
values in every update; `file_type` supplied as the empty string keeps
its prior value only when no payload accompanies the request (with a
payload it is overwritten by the empty string). -/
theorem update_empty_fields_keep_prior
    (r : Resource) (blobs : List String) (form : RequestForm)
    (put : Except Unit UploadOutcome) :
    (form.title = some "" → (update_resource r blobs form put).2.1.title = r.title) ∧
    (form.category = some "" → (update_resource r blobs form put).2.1.category = r.category) ∧
    (form.level = some "" → (update_resource r blobs form put).2.1.level = r.level) ∧
    (form.department = some "" →
      (update_resource r blobs form put).2.1.department = r.department) ∧
    (fileTruthy form.file = false → form.file_type = some "" →
      (update_resource r blobs form put).2.1.file_type = r.file_type) := by
  refine ⟨?_, ?_, ?_, ?_, ?_⟩
  · intro h
    cases hf : fileTruthy form.file <;> cases put <;>
      simp [update_resource, hf, h, truthy]
  · intro h
    cases hf : fileTruthy form.file <;> cases put <;>
      simp [update_resource, hf, h, truthy]
  · intro h
    cases hf : fileTruthy form.file <;> cases put <;>
      simp [update_resource, hf, h, truthy]
  · intro h
    cases hf : fileTruthy form.file <;> cases put <;>
      simp [update_resource, hf, h, truthy]
  · intro hf h
    simp [update_resource, hf, h, truthy]

/-- Witness for the amended C9 theorem at a concrete record and request. -/
theorem update_empty_fields_keep_prior_witness :
    (update_resource rScratch [] ⟨some "", some "", some "", some "", some "", none⟩
        (.error ())).2.1.title = rScratch.title ∧
    (update_resource rScratch [] ⟨some "", some "", some "", some "", some "", none⟩
        (.error ())).2.1.file_type = rScratch.file_type := by
  have h := update_empty_fields_keep_prior rScratch []
      ⟨some "", some "", some "", some "", some "", none⟩ (.error ())
  exact ⟨h.1 rfl, h.2.2.2.2 rfl rfl⟩

/-- Claim C10: a listing request (scoped or admin) whose `page` or
`limit` parameter is present but not parseable as an integer returns
the 500 internal-error response with `success = false`, rather than
clamping, defaulting, or returning a validation error. -/
theorem listing_unparseable_page_limit_500
    (department level category file_type title page limit : Option String)
    (repo : List Resource) (s : String) (hs : pyInt s = none) :
    (isTruthy department = true → isTruthy level = true →
      get_user_resources department level category (some s) limit repo = (500, false, []) ∧
      get_user_resources department level category page (some s) repo = (500, false, [])) ∧
    (get_all_resources department level category file_type title (some s) limit repo =
        (500, false, []) ∧
      get_all_resources department level category file_type title page (some s) repo =
        (500, false, [])) := by
  constructor
  · intro hd hl
    constructor
    · cases h2 : pyIntOpt limit 10 <;>
        simp [get_user_resources, hd, hl, pyIntOpt, hs, h2]
    · cases h2 : pyIntOpt page 1 <;>
        simp [get_user_resources, hd, hl, pyIntOpt, hs, h2]
  · constructor
    · cases h2 : pyIntOpt limit 20 <;>
        simp [get_all_resources, pyIntOpt, hs, h2]
    · cases h2 : pyIntOpt page 1 <;>
        simp [get_all_resources, pyIntOpt, hs, h2]

/-- Witness for the C10 theorem at a concrete unparseable parameter. -/
theorem listing_unparseable_page_limit_500_witness :
    get_user_resources (some "CS") (some "100") none (some "abc") none [] =
        (500, false, []) ∧
    get_all_resources none none none none none (some "abc") none [] = (500, false, []) := by
  have h := listing_unparseable_page_limit_500 (some "CS") (some "100") none none none
      none none [] "abc" rfl
  exact ⟨(h.1 rfl rfl).1, h.2.1⟩

end ResourcesSpec
